import Mathlib

/-!
Verification of the storage-and-concurrency core of the BusTub-style engine:
lock manager (src/concurrency/lock_manager.cpp), buffer pool manager
(src/buffer/buffer_pool_manager_instance.cpp with src/buffer/lru_replacer.cpp)
and the extendible hash index (src/container/hash/extendible_hash_table.cpp
with src/storage/page/hash_table_bucket_page.cpp), as a shallow embedding.
Machine integers are modelled as Nat or Int; page ids, frame ids, txn ids and
rids are Nat or Int; hash values are reduced mod 2^32 where the source
downcasts to uint32.
-/

set_option maxRecDepth 4000

namespace Bustub

/-! ## Lock manager data model (src/concurrency/lock_manager.cpp) -/

inductive TransactionState
  | growing
  | shrinking
  | committed
  | aborted
deriving DecidableEq

inductive IsolationLevel
  | readUncommitted
  | readCommitted
  | repeatableRead
deriving DecidableEq

inductive LockMode
  | shared
  | exclusive
deriving DecidableEq

inductive AbortReason
  | lockOnShrinking
  | lockSharedOnReadUncommitted
  | upgradeConflict
  | deadlock
deriving DecidableEq

structure LockRequest where
  txnId : Int
  mode : LockMode
  granted : Bool
deriving DecidableEq

/-- The per-rid queue state: FIFO request list, count of granted shared
holders, the exclusive-held flag and the upgrade flag. -/
structure LockRequestQueue where
  queue : List LockRequest
  refcount : Int
  waiting : Bool
  upgrading : Bool
deriving DecidableEq

/-- A transaction as the lock manager sees it: id, state, isolation level
and the two owned-lock sets (rids). -/
structure Transaction where
  id : Int
  state : TransactionState
  iso : IsolationLevel
  sharedRids : List Nat
  exclusiveRids : List Nat
deriving DecidableEq

/-- LockManager.LockRequestQueue.find (lock_manager.cpp line 188): pointer to
the first request with the given txn id, or null. -/
def lrqFind (q : List LockRequest) (txnId : Int) : Option LockRequest :=
  match q with
  | [] => none
  | r :: rest => if r.txnId = txnId then some r else lrqFind rest txnId

/-- LockManager.LockRequestQueue.remove (lock_manager.cpp line 195): returns a
copy of the first request with the given txn id, or a default
request carrying INVALID_TXN_ID = -1 and SHARED mode on a miss.  The queue
itself is never modified by this function in the source. -/
def lrqRemove (q : List LockRequest) (txnId : Int) : LockRequest :=
  match q with
  | [] => ⟨-1, LockMode.shared, false⟩
  | r :: rest => if r.txnId = txnId then r else lrqRemove rest txnId

/-- The view of lock-manager state that LockManager.Prevent touches: the
states of all transactions (the id_txn_ map) plus the queue's refcount
and waiting flag. -/
structure PreventState where
  states : Int → TransactionState
  refcount : Int
  waiting : Bool

/-- LockManager.Prevent (lock_manager.cpp lines 175-186): iterate the request
queue; for every request that is granted and whose txn id equals the
requesting txn id, set that txn's state to ABORTED and drop its grant
(refcount decrement for SHARED, waiting cleared for EXCLUSIVE). -/
def prevent (txnId : Int) (q : List LockRequest) (s : PreventState) : PreventState :=
  match q with
  | [] => s
  | r :: rest =>
      let s1 :=
        if r.granted = true ∧ r.txnId = txnId then
          { states := fun t => if t = r.txnId then TransactionState.aborted else s.states t,
            refcount := if r.mode = LockMode.shared then s.refcount - 1 else s.refcount,
            waiting := if r.mode = LockMode.shared then s.waiting else false }
        else s
      prevent txnId rest s1

/-- The pre-wait phase of LockManager.LockExclusive (lock_manager.cpp lines
80-89): the request is appended to the FIFO queue (LockRequestQueue.insert
is declared in the header, missing from src; modelled from the spec:
arrival-order insertion with granted initially false), then, if an
exclusive lock is held or shared locks are granted, Prevent runs before
the requester waits on the condition variable. -/
def lockExclusiveArrive (states : Int → TransactionState) (txnId : Int)
    (q : LockRequestQueue) : (Int → TransactionState) × LockRequestQueue :=
  let q1 : LockRequestQueue := { q with queue := q.queue ++ [⟨txnId, LockMode.exclusive, false⟩] }
  if q1.waiting = true ∨ q1.refcount > 0 then
    let p := prevent txnId q1.queue ⟨states, q1.refcount, q1.waiting⟩
    (p.states, { q1 with refcount := p.refcount, waiting := p.waiting })
  else (states, q1)

/-- LockManager.Unlock (lock_manager.cpp lines 147-173) for one rid whose
queue is given: erase the rid from both owned-lock sets, read the mode via
LockRequestQueue.remove, possibly transition GROWING to SHRINKING, then
update refcount or waiting and report whether notify_all ran. -/
structure UnlockResult where
  ok : Bool
  txn : Transaction
  q : LockRequestQueue
  notified : Bool

def unlock (txn : Transaction) (rid : Nat) (q : LockRequestQueue) : UnlockResult :=
  let txn1 : Transaction :=
    { txn with sharedRids := txn.sharedRids.erase rid,
               exclusiveRids := txn.exclusiveRids.erase rid }
  let mode := (lrqRemove q.queue txn.id).mode
  let txn2 : Transaction :=
    if ¬(mode = LockMode.shared ∧ txn1.iso = IsolationLevel.readCommitted) ∧
        txn1.state = TransactionState.growing then
      { txn1 with state := TransactionState.shrinking }
    else txn1
  match mode with
  | LockMode.shared =>
      let rc := q.refcount - 1
      { ok := true, txn := txn2, q := { q with refcount := rc }, notified := rc = 0 }
  | LockMode.exclusive =>
      { ok := true, txn := txn2, q := { q with waiting := false }, notified := true }

/-- The pre-check phase of LockManager.LockShared (lock_manager.cpp lines
26-35): first the READ_UNCOMMITTED check, then the SHRINKING check; each
sets the transaction state to ABORTED and raises the corresponding
abort reason. -/
def lockSharedPre (txn : Transaction) : Transaction × Option AbortReason :=
  if txn.iso = IsolationLevel.readUncommitted then
    ({ txn with state := TransactionState.aborted },
     some AbortReason.lockSharedOnReadUncommitted)
  else if txn.state = TransactionState.shrinking then
    ({ txn with state := TransactionState.aborted }, some AbortReason.lockOnShrinking)
  else (txn, none)

/-- The pre-check phase of LockManager.LockExclusive (lock_manager.cpp lines
70-73): the SHRINKING check. -/
def lockExclusivePre (txn : Transaction) : Transaction × Option AbortReason :=
  if txn.state = TransactionState.shrinking then
    ({ txn with state := TransactionState.aborted }, some AbortReason.lockOnShrinking)
  else (txn, none)

/-- The pre-check phase of LockManager.LockUpgrade (lock_manager.cpp lines
108-117): the SHRINKING check, then the upgrade-conflict check. -/
def lockUpgradePre (txn : Transaction) (q : LockRequestQueue) :
    Transaction × Option AbortReason :=
  if txn.state = TransactionState.shrinking then
    ({ txn with state := TransactionState.aborted }, some AbortReason.lockOnShrinking)
  else if q.upgrading = true then
    ({ txn with state := TransactionState.aborted }, some AbortReason.upgradeConflict)
  else (txn, none)

/-! ## Buffer pool manager (src/buffer/buffer_pool_manager_instance.cpp and
src/buffer/lru_replacer.cpp)

Frames carry the in-memory page metadata; page bytes are abstracted to one
Nat token.  The disk manager collaborator is modelled by its observable
effects: a contents map, a log of WritePage calls and a log of
DeallocatePage calls (most recent first). -/

structure Frame where
  pageId : Int
  pinCount : Nat
  dirty : Bool
  data : Nat
deriving DecidableEq

/-- LRUReplacer (src/buffer/lru_replacer.cpp): a recency list (front = least
recently unpinned) with the configured capacity. -/
structure Replacer where
  lru : List Nat
  cap : Nat
deriving DecidableEq

/-- LRUReplacer.Pin: remove the frame from the recency list if present. -/
def replacerPin (r : Replacer) (f : Nat) : Replacer :=
  { r with lru := r.lru.erase f }

/-- LRUReplacer.Unpin: no-op when the frame is already tracked, else append
to the tail; when the list exceeds the capacity the head is evicted. -/
def replacerUnpin (r : Replacer) (f : Nat) : Replacer :=
  if f ∈ r.lru then r
  else
    let l := r.lru ++ [f]
    if l.length > r.cap then { r with lru := l.tail } else { r with lru := l }

structure BPM where
  frames : Nat → Frame
  pageTable : List (Int × Nat)
  freeList : List Nat
  rep : Replacer
  diskContents : Int → Nat
  writeLog : List (Int × Nat)
  deallocLog : List Int

/-- Replace one frame's metadata. -/
def setFrame (s : BPM) (f : Nat) (fr : Frame) : BPM :=
  { s with frames := fun j => if j = f then fr else s.frames j }

/-- BufferPoolManagerInstance.FindPage (line 161): page-table lookup. -/
def findPage (s : BPM) (pid : Int) : Option Nat :=
  (s.pageTable.find? (fun e => e.1 = pid)).map (fun e => e.2)

/-- Disk manager WritePage as seen from the pool: update the contents map and
log the write. -/
def diskWrite (s : BPM) (pid : Int) (d : Nat) : BPM :=
  { s with
    diskContents := fun p => if p = pid then d else s.diskContents p,
    writeLog := (pid, d) :: s.writeLog }

/-- BufferPoolManagerInstance.FlushPageReally (line 184): write the frame's
bytes to disk when the page is resident and its frame is dirty; the dirty
flag itself is not touched here. -/
def flushPageReally (s : BPM) (pid : Int) : BPM :=
  match findPage s pid with
  | none => s
  | some f => if (s.frames f).dirty then diskWrite s pid ((s.frames f).data) else s

/-- BufferPoolManagerInstance.FlushPgImp (line 50): flush, then clear the
dirty flag. -/
def flushPg (s : BPM) (pid : Int) : Bool × BPM :=
  match findPage s pid with
  | none => (false, s)
  | some f =>
      let s1 := flushPageReally s pid
      (true, setFrame s1 f { s1.frames f with dirty := false })

/-- BufferPoolManagerInstance.UnpinPgImp (line 137): fail if the page is not
resident or unpinned; or-in the dirty bit, decrement the pin count, and on
reaching zero insert the frame into the replacer and flush. -/
def unpinPg (s : BPM) (pid : Int) (isDirty : Bool) : Bool × BPM :=
  match findPage s pid with
  | none => (false, s)
  | some f =>
      if (s.frames f).pinCount = 0 then (false, s)
      else
        let s1 := if isDirty then setFrame s f { s.frames f with dirty := true } else s
        let newPin := (s1.frames f).pinCount - 1
        let s2 := setFrame s1 f { s1.frames f with pinCount := newPin }
        if newPin = 0 then
          let s3 := { s2 with rep := replacerUnpin s2.rep f }
          (true, flushPageReally s3 pid)
        else (true, s2)

/-- BufferPoolManagerInstance.FindFreshPage (line 167): prefer the free list;
otherwise evict the replacer victim, flushing it if dirty and erasing its
page-table entry. -/
def findFresh (s : BPM) : Option Nat × BPM :=
  match s.freeList with
  | f :: rest => (some f, { s with freeList := rest })
  | [] =>
      match s.rep.lru with
      | [] => (none, s)
      | f :: rest =>
          let s1 := { s with rep := { s.rep with lru := rest } }
          let pid := (s1.frames f).pageId
          let s2 := flushPageReally s1 pid
          let s3 := { s2 with pageTable := s2.pageTable.filter (fun e => ¬ e.1 = pid) }
          (some f, setFrame s3 f { s3.frames f with dirty := false })

/-- BufferPoolManagerInstance.FetchPgImp (line 87).  On a hit the source pins
the frame, increments the pin count and sets the dirty flag to true
unconditionally.  On a miss it reserves a frame, installs the mapping and
reads the page from disk with a clean dirty flag. -/
def fetchPg (s : BPM) (pid : Int) : Option Nat × BPM :=
  match findPage s pid with
  | some f =>
      let s1 := { s with rep := replacerPin s.rep f }
      (some f,
       setFrame s1 f
         { s1.frames f with pinCount := (s1.frames f).pinCount + 1, dirty := true })
  | none =>
      match findFresh s with
      | (none, s1) => (none, s1)
      | (some f, s1) =>
          let s2 := { s1 with pageTable := (pid, f) :: s1.pageTable,
                              rep := replacerPin s1.rep f }
          (some f,
           setFrame s2 f
             { s2.frames f with pageId := pid, pinCount := (s2.frames f).pinCount + 1,
                                dirty := false, data := s2.diskContents pid })

/-- BufferPoolManagerInstance.DeletePgImp (line 116): DeallocatePage runs
first, unconditionally; then residency and pin count are checked; on the
pinned path the call fails with no further state change; otherwise the
page-table entry is erased, the frame is reset and returned to the
free list. -/
def deletePg (s : BPM) (pid : Int) : Bool × BPM :=
  let s0 := { s with deallocLog := pid :: s.deallocLog }
  match findPage s0 pid with
  | none => (true, s0)
  | some f =>
      if (s0.frames f).pinCount > 0 then (false, s0)
      else
        let s1 := { s0 with pageTable := s0.pageTable.filter (fun e => ¬ e.1 = pid) }
        let s2 := setFrame s1 f { pageId := -1, pinCount := (s1.frames f).pinCount,
                                  dirty := false, data := 0 }
        (true, { s2 with freeList := s2.freeList ++ [f] })

/-! ## Hash bucket page (src/storage/page/hash_table_bucket_page.cpp)

Keys and values are Nat (the int,int instantiation with IntComparator); the
slot-array size B is a parameter, as BUCKET_ARRAY_SIZE depends on the key and
value types and the configurable page size.  The occupied and readable
bitmaps and the slot array are total maps queried below the bound B. -/

def upd {α : Type} (f : Nat → α) (i : Nat) (x : α) : Nat → α :=
  fun j => if j = i then x else f j

structure Bucket where
  occ : Nat → Bool
  rd : Nat → Bool
  kv : Nat → Nat × Nat

/-- HashTableBucketPage.IsOccupied (line 77): false out of bounds. -/
def isOccupied (B : Nat) (b : Bucket) (i : Nat) : Bool :=
  decide (i < B) && b.occ i

/-- HashTableBucketPage.IsReadable (line 89): false out of bounds or
unoccupied. -/
def isReadable (B : Nat) (b : Bucket) (i : Nat) : Bool :=
  decide (i < B) && (b.occ i && b.rd i)

/-- HashTableBucketPage.SetOccupied (line 83). -/
def setOccupied (B : Nat) (b : Bucket) (i : Nat) : Bucket :=
  if i < B then { b with occ := upd b.occ i true } else b

/-- HashTableBucketPage.SetReadable (line 95): guarded by bounds and
occupancy. -/
def setReadable (B : Nat) (b : Bucket) (i : Nat) : Bucket :=
  if i < B ∧ isOccupied B b i = true then { b with rd := upd b.rd i true } else b

/-- HashTableBucketPage.UnsetReadable (line 101). -/
def unsetReadable (B : Nat) (b : Bucket) (i : Nat) : Bucket :=
  if i < B then { b with rd := upd b.rd i false } else b

/-- HashTableBucketPage.RemoveAt (line 71): clear the readable bit of a live
slot; the occupied bit is retained as a tombstone. -/
def removeAt (B : Nat) (b : Bucket) (i : Nat) : Bucket :=
  if isReadable B b i = true then unsetReadable B b i else b

/-- HashTableBucketPage.KeyAt (line 59): default key 0 on a dead slot. -/
def keyAt (B : Nat) (b : Bucket) (i : Nat) : Nat :=
  if isReadable B b i = true then (b.kv i).1 else 0

/-- HashTableBucketPage.ValueAt (line 65). -/
def valueAt (B : Nat) (b : Bucket) (i : Nat) : Nat :=
  if isReadable B b i = true then (b.kv i).2 else 0

/-- HashTableBucketPage.GetValue (line 23): scan while the slot is occupied
(the occupied-prefix short-circuit), collecting values of readable slots
with an equal key. -/
def getValueAux (B : Nat) (b : Bucket) (key : Nat) : Nat → Nat → List Nat
  | _, 0 => []
  | i, fuel + 1 =>
      if i < B ∧ isOccupied B b i = true then
        (if isReadable B b i && decide (keyAt B b i = key) then [valueAt B b i] else [])
          ++ getValueAux B b key (i + 1) fuel
      else []

def bucketGetValue (B : Nat) (b : Bucket) (key : Nat) : List Nat :=
  getValueAux B b key 0 B

/-- The slot-search loop of HashTableBucketPage.Insert (line 38): first index
that is not occupied, or B when every slot is occupied. -/
def firstFree (B : Nat) (b : Bucket) : Nat → Nat → Nat
  | i, 0 => i
  | i, fuel + 1 =>
      if i < B ∧ isOccupied B b i = true then firstFree B b (i + 1) fuel else i

/-- HashTableBucketPage.Insert (line 31): reject a duplicate pair, else place
at the first unoccupied slot, setting both bits; fail when no slot is
free. -/
def bucketInsert (B : Nat) (b : Bucket) (key value : Nat) : Bool × Bucket :=
  if (bucketGetValue B b key).contains value then (false, b)
  else
    let i := firstFree B b 0 B
    if i = B then (false, b)
    else (true, setReadable B (setOccupied B { b with kv := upd b.kv i (key, value) } i) i)

/-- HashTableBucketPage.NumReadable (line 112): count readable slots over the
occupied prefix. -/
def numReadableAux (B : Nat) (b : Bucket) : Nat → Nat → Nat
  | _, 0 => 0
  | i, fuel + 1 =>
      if i < B ∧ isOccupied B b i = true then
        (if isReadable B b i = true then 1 else 0) + numReadableAux B b (i + 1) fuel
      else 0

def bucketNumReadable (B : Nat) (b : Bucket) : Nat :=
  numReadableAux B b 0 B

/-- HashTableBucketPage.IsFull (line 107). -/
def bucketIsFull (B : Nat) (b : Bucket) : Bool :=
  decide (bucketNumReadable B b = B)

/-- HashTableBucketPage.IsEmpty (line 121). -/
def bucketIsEmpty (B : Nat) (b : Bucket) : Bool :=
  decide (bucketNumReadable B b = 0)

/-- HashTableBucketPage.Remove (line 48): clear the readable bit of the first
live slot matching both key and value, scanning the occupied prefix. -/
def bucketRemoveAux (B : Nat) (b : Bucket) (key value : Nat) : Nat → Nat → Bool × Bucket
  | _, 0 => (false, b)
  | i, fuel + 1 =>
      if i < B ∧ isOccupied B b i = true then
        if isReadable B b i && (decide (keyAt B b i = key) && decide (valueAt B b i = value)) then
          (true, unsetReadable B b i)
        else bucketRemoveAux B b key value (i + 1) fuel
      else (false, b)

def bucketRemove (B : Nat) (b : Bucket) (key value : Nat) : Bool × Bucket :=
  bucketRemoveAux B b key value 0 B

def emptyBucket : Bucket :=
  ⟨fun _ => false, fun _ => false, fun _ => (0, 0)⟩

/-- A key-value pair is contained in a bucket when some live slot holds it. -/
def bucketContains (B : Nat) (b : Bucket) (k v : Nat) : Bool :=
  (List.range B).any fun j => isReadable B b j && decide (b.kv j = (k, v))

/-- The number of readable slots with index at least i, scanning all slots
with no occupied-prefix short-circuit; used to budget the image bucket
during split migration. -/
def readableCountFrom (B : Nat) (b : Bucket) : Nat → Nat → Nat
  | _, 0 => 0
  | i, fuel + 1 =>
      (if isReadable B b i = true then 1 else 0) + readableCountFrom B b (i + 1) fuel

/-! ## Hash directory page

The directory page source (hash_table_directory_page.cpp) is not under src;
its operations are modelled from the spec, section 4.4. -/

structure Dir where
  gd : Nat
  bpid : Nat → Nat
  ld : Nat → Nat

/-- Modelled from the spec: GlobalDepthMask = (1 << global_depth) - 1. -/
def gdMask (d : Dir) : Nat := 2 ^ d.gd - 1

/-- Modelled from the spec: LocalDepthMask(i) = (1 << local_depth(i)) - 1. -/
def ldMask (d : Dir) (i : Nat) : Nat := 2 ^ d.ld i - 1

/-- Modelled from the spec: SplitImageIndex(i) = i XOR (1 << (local_depth(i)
- 1)). -/
def splitImageIndex (d : Dir) (i : Nat) : Nat := i ^^^ 2 ^ (d.ld i - 1)

/-- Modelled from the spec: GetLocalHighBits(i) — the bits of slot i under
its local-depth mask, compared against masked hashes in SplitInsert step
4. -/
def localHighBits (d : Dir) (i : Nat) : Nat := i &&& ldMask d i

/-- Modelled from the spec: Grow copies the lower half of both tables into
the new upper half and increments global_depth. -/
def dirGrow (d : Dir) : Dir :=
  { gd := d.gd + 1,
    bpid := fun j => if 2 ^ d.gd ≤ j ∧ j < 2 ^ (d.gd + 1) then d.bpid (j - 2 ^ d.gd) else d.bpid j,
    ld := fun j => if 2 ^ d.gd ≤ j ∧ j < 2 ^ (d.gd + 1) then d.ld (j - 2 ^ d.gd) else d.ld j }

/-- Modelled from the spec: Size = 2^global_depth. -/
def dirSize (d : Dir) : Nat := 2 ^ d.gd

/-- Modelled from the spec: CanShrink holds iff every slot's local depth is
below the global depth. -/
def canShrink (d : Dir) : Bool :=
  (List.range (dirSize d)).all fun i => decide (d.ld i < d.gd)

/-- Modelled from the spec: Shrink decrements global_depth. -/
def dirShrink (d : Dir) : Dir := { d with gd := d.gd - 1 }

/-- Modelled from the spec: SetBucketPageId writes one slot. -/
def setBpid (d : Dir) (i : Nat) (p : Nat) : Dir := { d with bpid := upd d.bpid i p }

/-- Modelled from the spec: SetLocalDepth writes one slot. -/
def setLd (d : Dir) (i : Nat) (n : Nat) : Dir := { d with ld := upd d.ld i n }

/-- Modelled from the spec: DecrLocalDepth decrements one slot's local
depth. -/
def decrLd (d : Dir) (i : Nat) : Dir := { d with ld := upd d.ld i (d.ld i - 1) }

/-! ## Extendible hash table (src/container/hash/extendible_hash_table.cpp)

The buffer pool is transparent at this level: fetched pages are read and
written through the pages map; page ids are allocated sequentially from
nextPid exactly as a fresh single-instance pool hands them out (directory
page 0, then bucket pages 1, 2, ...). -/

structure HT where
  dir : Dir
  pages : Nat → Bucket
  nextPid : Nat

/-- ExtendibleHashTable.Hash (line 66): downcast the 64-bit hash to 32
bits. -/
def hash32 (hashFn : Nat → Nat) (k : Nat) : Nat := hashFn k % 4294967296

/-- ExtendibleHashTable.KeyToDirectoryIndex (line 71). -/
def keyToDirIndex (hashFn : Nat → Nat) (d : Dir) (k : Nat) : Nat :=
  gdMask d &&& hash32 hashFn k

def setPage (ht : HT) (pid : Nat) (b : Bucket) : HT :=
  { ht with pages := upd ht.pages pid b }

/-- The ExtendibleHashTable constructor (lines 26-53): allocate the directory
page (id 0), allocate bucket page 0 (id 1) and install it at slot 0 with
local depth 1, allocate bucket page 1 (id 2) but install bucket0_page_id at
slot 1 with local depth 1 — exactly as the source writes it — then increment
the global depth from 0 to 1. -/
def htInit : HT :=
  let d0 : Dir := ⟨0, fun _ => 0, fun _ => 0⟩
  let d1 := setLd (setBpid d0 0 1) 0 1
  let d2 := setLd (setBpid d1 1 1) 1 1
  ⟨{ d2 with gd := d2.gd + 1 }, fun _ => emptyBucket, 3⟩

/-- ExtendibleHashTable.GetValue (line 114): dispatch by masked hash to a
bucket page and delegate. -/
def htGetValue (hashFn : Nat → Nat) (B : Nat) (ht : HT) (k : Nat) : List Nat :=
  bucketGetValue B (ht.pages (ht.dir.bpid (keyToDirIndex hashFn ht.dir k))) k

/-- The key-migration pass of ExtendibleHashTable.SplitInsert (lines
174-184): scan slots from 0 while the index is below size and the slot is
readable; move a slot whose masked 32-bit hash equals the image's high bits
into the image bucket and clear it in the old bucket. -/
def migrate (hashFn : Nat → Nat) (B localMask highBits size : Nat) :
    Bucket → Bucket → Nat → Nat → Bucket × Bucket
  | old, img, _, 0 => (old, img)
  | old, img, i, fuel + 1 =>
      if i < size ∧ isReadable B old i = true then
        if hash32 hashFn (keyAt B old i) &&& localMask = highBits then
          migrate hashFn B localMask highBits size (removeAt B old i)
            (bucketInsert B img (keyAt B old i) (valueAt B old i)).2 (i + 1) fuel
        else migrate hashFn B localMask highBits size old img (i + 1) fuel
      else (old, img)

/-- Modelled from the spec, for comparison with the source scan: step 4 of
SplitInsert re-hashes every slot j in [0, B) with no short-circuit; a live
slot whose masked hash equals the image's high bits is moved to the image
bucket and cleared in the old bucket. -/
def migrateSpec (hashFn : Nat → Nat) (B localMask highBits : Nat) :
    Bucket → Bucket → Nat → Nat → Bucket × Bucket
  | old, img, _, 0 => (old, img)
  | old, img, i, fuel + 1 =>
      if i < B then
        if isReadable B old i = true ∧ hash32 hashFn (keyAt B old i) &&& localMask = highBits then
          migrateSpec hashFn B localMask highBits (removeAt B old i)
            (bucketInsert B img (keyAt B old i) (valueAt B old i)).2 (i + 1) fuel
        else migrateSpec hashFn B localMask highBits old img (i + 1) fuel
      else (old, img)

/-- The while loop of ExtendibleHashTable.SplitInsert (lines 151-188), with
explicit fuel since the source loop need not terminate: re-dispatch the key;
insert if the target bucket has room; otherwise grow the directory when the
local depth has reached the global depth, install a fresh bucket page at the
split-image slot with the old bucket's local depth (the source increments
neither local depth), migrate, and loop. -/
def splitInsertLoop (hashFn : Nat → Nat) (B k v : Nat) : Nat → HT → Bool × HT
  | 0, ht => (false, ht)
  | fuel + 1, ht =>
      let idx := keyToDirIndex hashFn ht.dir k
      let pid := ht.dir.bpid idx
      let b := ht.pages pid
      if bucketIsFull B b = false then
        let r := bucketInsert B b k v
        (r.1, setPage ht pid r.2)
      else
        let d1 := if ht.dir.ld idx ≥ ht.dir.gd then dirGrow ht.dir else ht.dir
        let image := splitImageIndex d1 idx
        let newPid := ht.nextPid
        let d2 := setLd (setBpid d1 image newPid) image (d1.ld idx)
        let mig := migrate hashFn B (ldMask d2 idx) (localHighBits d2 image)
          (bucketNumReadable B b) b emptyBucket 0 (bucketNumReadable B b)
        splitInsertLoop hashFn B k v fuel
          { dir := d2, pages := upd (upd ht.pages newPid mig.2) pid mig.1,
            nextPid := newPid + 1 }

/-- ExtendibleHashTable.Insert (line 127): insert directly when the target
bucket is not full, else yield to SplitInsert. -/
def htInsert (hashFn : Nat → Nat) (B fuel : Nat) (ht : HT) (k v : Nat) : Bool × HT :=
  let idx := keyToDirIndex hashFn ht.dir k
  let pid := ht.dir.bpid idx
  let b := ht.pages pid
  if bucketIsFull B b = false then
    let r := bucketInsert B b k v
    (r.1, setPage ht pid r.2)
  else splitInsertLoop hashFn B k v fuel ht

/-- The inner rebinding loop of ExtendibleHashTable.Merge (lines 229-236):
every other slot whose bucket id equalled the departing bucket or its image
is rebound to the image page with the merged local depth. -/
def mergeInner (d : Dir) (bucketIdx imgIdx pid imgPid : Nat) : Dir :=
  (List.range (dirSize d)).foldl
    (fun dacc j =>
      if j = bucketIdx ∨ j = imgIdx then dacc
      else if dacc.bpid j = pid ∨ dacc.bpid j = imgPid then
        setBpid (setLd dacc j (dacc.ld bucketIdx)) j imgPid
      else dacc) d

/-- The outer loop of ExtendibleHashTable.Merge (lines 217-244), with fuel:
walk the directory; a slot with local depth above 1, an empty bucket, and an
image of equal depth has both depths decremented, its slot rebound to the
image page and all aliasing slots rebound; after each slot the directory
shrinks while CanShrink holds for one step. -/
def mergeLoop (B : Nat) : Nat → Nat → HT → HT
  | 0, _, ht => ht
  | fuel + 1, bucketIdx, ht =>
      if bucketIdx < dirSize ht.dir then
        let pid := ht.dir.bpid bucketIdx
        let b := ht.pages pid
        let ldi := ht.dir.ld bucketIdx
        let imgIdx := splitImageIndex ht.dir bucketIdx
        let imgPid := ht.dir.bpid imgIdx
        let d1 :=
          if ldi > 1 ∧ bucketIsEmpty B b = true ∧ ht.dir.ld imgIdx = ldi then
            let da := decrLd (decrLd ht.dir bucketIdx) imgIdx
            let db := setBpid da bucketIdx (da.bpid imgIdx)
            mergeInner db bucketIdx imgIdx pid imgPid
          else ht.dir
        let d2 := if canShrink d1 = true then dirShrink d1 else d1
        mergeLoop B fuel (bucketIdx + 1) { ht with dir := d2 }
      else ht

/-- ExtendibleHashTable.Remove (line 197): delegate to the bucket, then merge
when the removal succeeded and left the bucket empty. -/
def htRemove (hashFn : Nat → Nat) (B fuel : Nat) (ht : HT) (k v : Nat) : Bool × HT :=
  let pid := ht.dir.bpid (keyToDirIndex hashFn ht.dir k)
  let r := bucketRemove B (ht.pages pid) k v
  let ht1 := setPage ht pid r.2
  if r.1 = true ∧ bucketIsEmpty B r.2 = true then (r.1, mergeLoop B fuel 0 ht1)
  else (r.1, ht1)

/-- One index operation: Insert or Remove. -/
inductive Op
  | ins (k v : Nat)
  | rem (k v : Nat)

def applyOp (hashFn : Nat → Nat) (B fuel : Nat) (ht : HT) (op : Op) : HT :=
  match op with
  | Op.ins k v => (htInsert hashFn B fuel ht k v).2
  | Op.rem k v => (htRemove hashFn B fuel ht k v).2

def runOps (hashFn : Nat → Nat) (B fuel : Nat) (ht : HT) (ops : List Op) : HT :=
  ops.foldl (applyOp hashFn B fuel) ht

/-! ## Lock manager helper lemmas -/

theorem lrqRemove_eq_of_find {q : List LockRequest} {t : Int} {r : LockRequest}
    (h : lrqFind q t = some r) : lrqRemove q t = r := by
  induction q with
  | nil => simp [lrqFind] at h
  | cons x rest ih =>
      by_cases hx : x.txnId = t
      · have hxr : x = r := by simpa [lrqFind, hx] using h
        subst hxr
        simp [lrqRemove, hx]
      · simp only [lrqFind, if_neg hx] at h
        simp [lrqRemove, hx, ih h]

/-- C1: in scenario S5 a granted younger shared holder (txn 1) and a younger
waiting exclusive requester (txn 2) sit on the queue with refcount 1; the
older txn 0 arrives requesting an exclusive lock.  The claim says txn 0
wounds txns 1 and 2 (both become ABORTED, the shared grant's refcount is
decremented) and then acquires the lock.  The source's Prevent only matches
granted requests whose txn id equals the requester's own, so here it wounds
nobody: both victims stay GROWING, refcount stays 1, and the older requester
is left to wait.  The last conjunct shows what Prevent actually does: a
requester that itself holds a granted lock self-wounds. -/
theorem prevent_wounds_nobody_s5 :
    ((lockExclusiveArrive (fun _ => TransactionState.growing) 0
        ⟨[⟨1, LockMode.shared, true⟩, ⟨2, LockMode.exclusive, false⟩], 1, false, false⟩).1 1
      = TransactionState.growing) ∧
    ((lockExclusiveArrive (fun _ => TransactionState.growing) 0
        ⟨[⟨1, LockMode.shared, true⟩, ⟨2, LockMode.exclusive, false⟩], 1, false, false⟩).1 2
      = TransactionState.growing) ∧
    ((lockExclusiveArrive (fun _ => TransactionState.growing) 0
        ⟨[⟨1, LockMode.shared, true⟩, ⟨2, LockMode.exclusive, false⟩], 1, false, false⟩).2.refcount
      = 1) ∧
    ((lockExclusiveArrive (fun _ => TransactionState.growing) 0
        ⟨[⟨1, LockMode.shared, true⟩, ⟨2, LockMode.exclusive, false⟩], 1, false, false⟩).2.waiting
      = false) ∧
    ((prevent 1 [⟨1, LockMode.shared, true⟩]
        ⟨fun _ => TransactionState.growing, 1, false⟩).states 1 = TransactionState.aborted) := by
  decide

/-- C6: Unlock never erases the released request from the rid's queue, and an
Unlock by a transaction with no request in the queue is silently treated as
releasing a shared lock instead of being reported as not present.  First
conjunct: after txn 1 (holding a granted shared lock) unlocks, its request is
still in the queue.  Second conjunct: LockRequestQueue.remove on a miss falls
through to the INVALID_TXN_ID shared default.  Third conjunct: an Unlock by
the absent txn 5 succeeds and decrements the shared refcount from 1 to 0. -/
theorem unlock_leaves_request_in_queue :
    ((unlock ⟨1, TransactionState.growing, IsolationLevel.repeatableRead, [7], []⟩ 7
        ⟨[⟨1, LockMode.shared, true⟩], 1, false, false⟩).q.queue
      = [⟨1, LockMode.shared, true⟩]) ∧
    (lrqRemove [⟨1, LockMode.shared, true⟩] 5 = ⟨-1, LockMode.shared, false⟩) ∧
    ((unlock ⟨5, TransactionState.growing, IsolationLevel.repeatableRead, [], []⟩ 7
        ⟨[⟨1, LockMode.shared, true⟩], 1, false, false⟩).ok = true) ∧
    ((unlock ⟨5, TransactionState.growing, IsolationLevel.repeatableRead, [], []⟩ 7
        ⟨[⟨1, LockMode.shared, true⟩], 1, false, false⟩).q.refcount = 0) := by
  decide

/-- C7: for an Unlock by a transaction whose request (of mode r.mode) is in
the rid's queue, the state moves from GROWING to SHRINKING exactly when the
state was GROWING and it is not the case that the released mode is SHARED
under READ_COMMITTED; in particular a REPEATABLE_READ shared unlock from
GROWING lands in SHRINKING while the same unlock under READ_COMMITTED stays
in GROWING. -/
theorem unlock_state_transition (txn : Transaction) (rid : Nat) (q : LockRequestQueue)
    (r : LockRequest) (h : lrqFind q.queue txn.id = some r) :
    ((txn.state = TransactionState.growing ∧
        (unlock txn rid q).txn.state = TransactionState.shrinking) ↔
      (txn.state = TransactionState.growing ∧
        ¬(r.mode = LockMode.shared ∧ txn.iso = IsolationLevel.readCommitted))) ∧
    (txn.state = TransactionState.growing → r.mode = LockMode.shared →
      txn.iso = IsolationLevel.repeatableRead →
      (unlock txn rid q).txn.state = TransactionState.shrinking) ∧
    (txn.state = TransactionState.growing → r.mode = LockMode.shared →
      txn.iso = IsolationLevel.readCommitted →
      (unlock txn rid q).txn.state = TransactionState.growing) := by
  have hm : lrqRemove q.queue txn.id = r := lrqRemove_eq_of_find h
  obtain ⟨tid, tst, tiso, ts, te⟩ := txn
  cases hr : r.mode <;> cases tst <;> cases tiso <;>
    simp_all [unlock]

/-- Witness for C7: txn 1 under REPEATABLE_READ in GROWING releases its
granted shared lock and transitions to SHRINKING. -/
theorem unlock_state_transition_witness :
    lrqFind ([⟨1, LockMode.shared, true⟩] : List LockRequest) 1
      = some ⟨1, LockMode.shared, true⟩ ∧
    (unlock ⟨1, TransactionState.growing, IsolationLevel.repeatableRead, [5], []⟩ 5
        ⟨[⟨1, LockMode.shared, true⟩], 1, false, false⟩).txn.state
      = TransactionState.shrinking :=
  ⟨by decide,
   (unlock_state_transition
      ⟨1, TransactionState.growing, IsolationLevel.repeatableRead, [5], []⟩ 5
      ⟨[⟨1, LockMode.shared, true⟩], 1, false, false⟩
      ⟨1, LockMode.shared, true⟩ (by decide)).2.1 rfl rfl rfl⟩

/-- C8 counterexample: a LockShared call by a READ_UNCOMMITTED transaction in
SHRINKING state fails with LOCKSHARED_ON_READ_UNCOMMITTED, not with
LOCK_ON_SHRINKING as the claim states, because the source checks the
isolation level before the shrinking state. -/
theorem lockshared_shrinking_ru_counterexample :
    (lockSharedPre ⟨7, TransactionState.shrinking, IsolationLevel.readUncommitted, [], []⟩).2
      = some AbortReason.lockSharedOnReadUncommitted ∧
    (lockSharedPre ⟨7, TransactionState.shrinking, IsolationLevel.readUncommitted, [], []⟩).2
      ≠ some AbortReason.lockOnShrinking := by
  decide

/-- C8 amended: a SHRINKING transaction is set to ABORTED and fails with
LOCK_ON_SHRINKING on LockExclusive and LockUpgrade at every isolation level,
and on LockShared at every isolation level except READ_UNCOMMITTED, where
the isolation check precedes and the failure reason is
LOCKSHARED_ON_READ_UNCOMMITTED (the state still becomes ABORTED). -/
theorem shrinking_precheck_amended (txn : Transaction) (q : LockRequestQueue)
    (h : txn.state = TransactionState.shrinking) :
    ((lockExclusivePre txn).1.state = TransactionState.aborted ∧
      (lockExclusivePre txn).2 = some AbortReason.lockOnShrinking) ∧
    ((lockUpgradePre txn q).1.state = TransactionState.aborted ∧
      (lockUpgradePre txn q).2 = some AbortReason.lockOnShrinking) ∧
    (txn.iso ≠ IsolationLevel.readUncommitted →
      (lockSharedPre txn).1.state = TransactionState.aborted ∧
      (lockSharedPre txn).2 = some AbortReason.lockOnShrinking) ∧
    (txn.iso = IsolationLevel.readUncommitted →
      (lockSharedPre txn).1.state = TransactionState.aborted ∧
      (lockSharedPre txn).2 = some AbortReason.lockSharedOnReadUncommitted) := by
  obtain ⟨tid, tst, tiso, ts, te⟩ := txn
  simp only [Transaction.state] at h
  subst h
  cases tiso <;> simp [lockSharedPre, lockExclusivePre, lockUpgradePre]

/-- Witness for the amended C8: a SHRINKING REPEATABLE_READ transaction
calling LockShared fails with LOCK_ON_SHRINKING. -/
theorem shrinking_precheck_amended_witness :
    (lockSharedPre ⟨0, TransactionState.shrinking, IsolationLevel.repeatableRead, [], []⟩).2
      = some AbortReason.lockOnShrinking :=
  ((shrinking_precheck_amended
      ⟨0, TransactionState.shrinking, IsolationLevel.repeatableRead, [], []⟩
      ⟨[], 0, false, false⟩ rfl).2.2.1 (by decide)).2

/-! ## Buffer pool manager lemmas and claim theorems -/

theorem findPage_setFrame (s : BPM) (f : Nat) (fr : Frame) (pid : Int) :
    findPage (setFrame s f fr) pid = findPage s pid := rfl

theorem mem_replacerUnpin (r : Replacer) (f : Nat) (hcap : 0 < r.cap) :
    f ∈ (replacerUnpin r f).lru := by
  by_cases h : f ∈ r.lru
  · simp [replacerUnpin, h]
  · simp only [replacerUnpin, h, if_false]
    split
    · rename_i hl
      rcases hr : r.lru with _ | ⟨x, rest⟩
      · rw [hr] at hl
        simp at hl
        omega
      · simp [hr]
    · simp

/-- C5: on a fetch that hits a resident clean page the frame's dirty flag
comes back true: the source dirties the frame unconditionally on a hit
(buffer_pool_manager_instance.cpp line 102), diverging from the rule that a
frame becomes dirty only through UnpinPage with is_dirty true.  The state
holds page 0 in frame 0, unpinned and clean; the fetch also increments the
pin count and removes the frame from the replacer as expected. -/
theorem fetch_hit_sets_dirty :
    (((fetchPg ⟨fun _ => ⟨0, 0, false, 42⟩, [(0, 0)], [], ⟨[0], 1⟩, fun _ => 0, [], []⟩
        0).2.frames 0).dirty = true) ∧
    (((fetchPg ⟨fun _ => ⟨0, 0, false, 42⟩, [(0, 0)], [], ⟨[0], 1⟩, fun _ => 0, [], []⟩
        0).2.frames 0).pinCount = 1) ∧
    ((fetchPg ⟨fun _ => ⟨0, 0, false, 42⟩, [(0, 0)], [], ⟨[0], 1⟩, fun _ => 0, [], []⟩
        0).2.rep.lru = []) := by
  decide

/-- C9: DeletePage deallocates the page id at disk level before any check;
when the page is resident with a positive pin count the call returns false,
yet the deallocation has already been logged while the page table, the
frames and the free list are unchanged. -/
theorem delete_page_deallocates_before_checks (s : BPM) (pid : Int) (f : Nat)
    (hf : findPage s pid = some f) (hpin : 0 < (s.frames f).pinCount) :
    (deletePg s pid).1 = false ∧
    (deletePg s pid).2.deallocLog = pid :: s.deallocLog ∧
    (deletePg s pid).2.pageTable = s.pageTable ∧
    (deletePg s pid).2.frames = s.frames ∧
    (deletePg s pid).2.freeList = s.freeList := by
  have h0 : findPage { s with deallocLog := pid :: s.deallocLog } pid = some f := hf
  simp only [deletePg, h0]
  have h1 : ({ s with deallocLog := pid :: s.deallocLog } : BPM).frames = s.frames := rfl
  simp [h1, hpin]

/-- Witness for C9: page 3 resident in frame 0 with pin count 1; DeletePage
fails but the deallocation is logged. -/
theorem delete_page_deallocates_before_checks_witness :
    findPage ⟨fun _ => ⟨3, 1, false, 9⟩, [(3, 0)], [], ⟨[], 1⟩, fun _ => 0, [], []⟩ 3
      = some 0 ∧
    (deletePg ⟨fun _ => ⟨3, 1, false, 9⟩, [(3, 0)], [], ⟨[], 1⟩, fun _ => 0, [], []⟩ 3).1
      = false ∧
    (deletePg ⟨fun _ => ⟨3, 1, false, 9⟩, [(3, 0)], [], ⟨[], 1⟩, fun _ => 0, [], []⟩
        3).2.deallocLog = [3] :=
  ⟨by decide,
   (delete_page_deallocates_before_checks
      ⟨fun _ => ⟨3, 1, false, 9⟩, [(3, 0)], [], ⟨[], 1⟩, fun _ => 0, [], []⟩ 3 0
      (by decide) (by decide)).1,
   (delete_page_deallocates_before_checks
      ⟨fun _ => ⟨3, 1, false, 9⟩, [(3, 0)], [], ⟨[], 1⟩, fun _ => 0, [], []⟩ 3 0
      (by decide) (by decide)).2.1⟩

/-- C10: an UnpinPage that takes the pin count from 1 to 0 succeeds, puts the
frame into the replacer and immediately flushes: when the frame's dirty flag
(after or-ing in the is_dirty argument) is set, the page's bytes are written
to disk and the dirty flag is still set afterwards; when it is clear,
nothing is written. -/
theorem unpin_to_zero_flushes_dirty (s : BPM) (pid : Int) (d : Bool) (f : Nat)
    (hf : findPage s pid = some f) (hpin : (s.frames f).pinCount = 1)
    (hcap : 0 < s.rep.cap) :
    (unpinPg s pid d).1 = true ∧
    f ∈ (unpinPg s pid d).2.rep.lru ∧
    ((unpinPg s pid d).2.frames f).dirty = ((s.frames f).dirty || d) ∧
    (((s.frames f).dirty || d) = true →
      (unpinPg s pid d).2.writeLog = (pid, (s.frames f).data) :: s.writeLog) ∧
    (((s.frames f).dirty || d) = false →
      (unpinPg s pid d).2.writeLog = s.writeLog) := by
  have hmem := mem_replacerUnpin s.rep f hcap
  simp only [findPage] at hf
  cases d <;> cases hd : (s.frames f).dirty <;>
    simp [unpinPg, findPage, flushPageReally, setFrame, diskWrite, hf, hpin, hd, hmem]

/-- Witness for C10: page 4 is resident dirty in frame 0 with pin count 1;
unpinning it (is_dirty false) writes the bytes to disk and keeps the dirty
flag set. -/
theorem unpin_to_zero_flushes_dirty_witness :
    findPage ⟨fun _ => ⟨4, 1, true, 99⟩, [(4, 0)], [], ⟨[], 2⟩, fun _ => 0, [], []⟩ 4
      = some 0 ∧
    (unpinPg ⟨fun _ => ⟨4, 1, true, 99⟩, [(4, 0)], [], ⟨[], 2⟩, fun _ => 0, [], []⟩
        4 false).1 = true ∧
    (unpinPg ⟨fun _ => ⟨4, 1, true, 99⟩, [(4, 0)], [], ⟨[], 2⟩, fun _ => 0, [], []⟩
        4 false).2.writeLog = [(4, 99)] ∧
    0 ∈ (unpinPg ⟨fun _ => ⟨4, 1, true, 99⟩, [(4, 0)], [], ⟨[], 2⟩, fun _ => 0, [], []⟩
        4 false).2.rep.lru :=
  ⟨by decide,
   (unpin_to_zero_flushes_dirty
      ⟨fun _ => ⟨4, 1, true, 99⟩, [(4, 0)], [], ⟨[], 2⟩, fun _ => 0, [], []⟩
      4 false 0 (by decide) (by decide) (by decide)).1,
   (unpin_to_zero_flushes_dirty
      ⟨fun _ => ⟨4, 1, true, 99⟩, [(4, 0)], [], ⟨[], 2⟩, fun _ => 0, [], []⟩
      4 false 0 (by decide) (by decide) (by decide)).2.2.2.1 (by decide),
   (unpin_to_zero_flushes_dirty
      ⟨fun _ => ⟨4, 1, true, 99⟩, [(4, 0)], [], ⟨[], 2⟩, fun _ => 0, [], []⟩
      4 false 0 (by decide) (by decide) (by decide)).2.1⟩

/-! ## Hash table claim theorems -/

/-- C4: after construction the directory has global depth 1 and local depth
1 at slots 0 and 1, but the two slots hold the same bucket page id (both the
page allocated for bucket 0, page 1), even though a second bucket page
(page 2, visible in nextPid = 3) was allocated: the claim's requirement
bucket_page_ids[0] != bucket_page_ids[1] fails on the source. -/
theorem constructor_aliases_bucket_pages :
    htInit.dir.gd = 1 ∧ htInit.dir.ld 0 = 1 ∧ htInit.dir.ld 1 = 1 ∧
    htInit.dir.bpid 0 = 1 ∧ htInit.dir.bpid 1 = 1 ∧ htInit.nextPid = 3 := by
  decide

/-- C2: with bucket size B = 2 and the identity hash, inserting (1,10) and
(3,30) fills the bucket shared by slots 0 and 1; the next insert, (2,20),
triggers SplitInsert.  Before the split, GetValue(3) = [30].  The splitting
insert returns false, and afterwards GetValue(3) = [] although (3,30) was
inserted and never removed: the migration moved (3,30) to the image bucket
installed at slot 1 while the grown slot 3 still points at the drained old
bucket.  This refutes the claim's no-loss guarantee across splits. -/
theorem split_insert_loses_inserted_key :
    (htGetValue (fun k => k) 2 (runOps (fun k => k) 2 8 htInit
        [Op.ins 1 10, Op.ins 3 30]) 3 = [30]) ∧
    ((htInsert (fun k => k) 2 8 (runOps (fun k => k) 2 8 htInit
        [Op.ins 1 10, Op.ins 3 30]) 2 20).1 = false) ∧
    (htGetValue (fun k => k) 2 (runOps (fun k => k) 2 8 htInit
        [Op.ins 1 10, Op.ins 3 30, Op.ins 2 20]) 3 = []) := by
  decide

/-! ## Hash bucket lemmas for the migration-scan claim -/

theorem isOccupied_iff {B : Nat} {b : Bucket} {i : Nat} :
    isOccupied B b i = true ↔ i < B ∧ b.occ i = true := by
  simp [isOccupied]

theorem isReadable_iff {B : Nat} {b : Bucket} {i : Nat} :
    isReadable B b i = true ↔ i < B ∧ b.occ i = true ∧ b.rd i = true := by
  simp [isReadable]

theorem removeAt_kv (B : Nat) (b : Bucket) (x : Nat) : (removeAt B b x).kv = b.kv := by
  unfold removeAt unsetReadable
  split
  · split <;> rfl
  · rfl

theorem removeAt_occ (B : Nat) (b : Bucket) (x : Nat) : (removeAt B b x).occ = b.occ := by
  unfold removeAt unsetReadable
  split
  · split <;> rfl
  · rfl

theorem isReadable_removeAt_ne {B : Nat} {b : Bucket} {x j : Nat} (h : j ≠ x) :
    isReadable B (removeAt B b x) j = isReadable B b j := by
  unfold removeAt unsetReadable
  split
  · split
    · simp [isReadable, upd, h]
    · rfl
  · rfl

theorem isReadable_removeAt_self (B : Nat) (b : Bucket) (x : Nat) :
    isReadable B (removeAt B b x) x = false := by
  unfold removeAt unsetReadable
  split
  · rename_i hr
    split
    · simp [isReadable, upd]
    · rename_i hx
      exact absurd (isReadable_iff.mp hr).1 hx
  · rename_i hr
    simp only [Bool.not_eq_true] at hr
    exact hr

theorem isReadable_removeAt_false {B : Nat} {b : Bucket} {x j : Nat}
    (h : isReadable B b j = false) : isReadable B (removeAt B b x) j = false := by
  by_cases hj : j = x
  · rw [hj]
    exact isReadable_removeAt_self B b x
  · rw [isReadable_removeAt_ne hj]
    exact h

theorem keyAt_removeAt_ne {B : Nat} {b : Bucket} {x j : Nat} (h : j ≠ x) :
    keyAt B (removeAt B b x) j = keyAt B b j := by
  unfold keyAt
  rw [isReadable_removeAt_ne h, removeAt_kv]

theorem valueAt_removeAt_ne {B : Nat} {b : Bucket} {x j : Nat} (h : j ≠ x) :
    valueAt B (removeAt B b x) j = valueAt B b j := by
  unfold valueAt
  rw [isReadable_removeAt_ne h, removeAt_kv]

theorem numReadableAux_le (B : Nat) (b : Bucket) :
    ∀ fuel i, numReadableAux B b i fuel ≤ fuel := by
  intro fuel
  induction fuel with
  | zero => intro i; simp [numReadableAux]
  | succ n ih =>
      intro i
      simp only [numReadableAux]
      split
      · have := ih (i + 1)
        split <;> omega
      · omega

theorem numReadableAux_full (B : Nat) (b : Bucket) :
    ∀ fuel i, numReadableAux B b i fuel = fuel →
      ∀ j, i ≤ j → j < i + fuel → isReadable B b j = true := by
  intro fuel
  induction fuel with
  | zero => intro i _ j hj1 hj2; omega
  | succ n ih =>
      intro i h j hj1 hj2
      simp only [numReadableAux] at h
      split at h
      · have hle := numReadableAux_le B b n (i + 1)
        by_cases hr : isReadable B b i = true
        · rw [if_pos hr] at h
          have hrec : numReadableAux B b (i + 1) n = n := by omega
          rcases Nat.eq_or_lt_of_le hj1 with rfl | hlt
          · exact hr
          · exact ih (i + 1) hrec j hlt (by omega)
        · rw [if_neg hr] at h
          omega
      · omega

theorem firstFree_cases (B : Nat) (b : Bucket) :
    ∀ fuel i, i ≤ firstFree B b i fuel ∧ firstFree B b i fuel ≤ i + fuel ∧
      (firstFree B b i fuel = i + fuel ∨ isOccupied B b (firstFree B b i fuel) = false) := by
  intro fuel
  induction fuel with
  | zero => intro i; simp [firstFree]
  | succ n ih =>
      intro i
      simp only [firstFree]
      split
      · obtain ⟨h1, h2, h3⟩ := ih (i + 1)
        refine ⟨by omega, by omega, ?_⟩
        rcases h3 with h | h
        · left; omega
        · right; exact h
      · rename_i hc
        refine ⟨Nat.le_refl i, by omega, Or.inr ?_⟩
        by_cases hiB : i < B
        · have hocc : ¬ isOccupied B b i = true := fun hocc => hc ⟨hiB, hocc⟩
          simpa using hocc
        · simp [isOccupied, hiB]

theorem firstFree_of_prefix (B : Nat) (b : Bucket) (m : Nat)
    (hm : ∀ jj, isOccupied B b jj = true ↔ jj < m) :
    ∀ fuel i, i ≤ m → m < i + fuel → firstFree B b i fuel = m := by
  intro fuel
  induction fuel with
  | zero => intro i h1 h2; omega
  | succ n ih =>
      intro i h1 h2
      simp only [firstFree]
      rcases Nat.eq_or_lt_of_le h1 with rfl | hlt
      · rw [if_neg]
        intro hc
        exact absurd ((hm i).mp hc.2) (Nat.lt_irrefl i)
      · have hocc : isOccupied B b i = true := (hm i).mpr hlt
        have hiB : i < B := (isOccupied_iff.mp hocc).1
        rw [if_pos ⟨hiB, hocc⟩]
        exact ih (i + 1) hlt (by omega)

theorem getValueAux_mem (B : Nat) (b : Bucket) (k : Nat) :
    ∀ fuel i v, v ∈ getValueAux B b k i fuel →
      ∃ j, isReadable B b j = true ∧ b.kv j = (k, v) := by
  intro fuel
  induction fuel with
  | zero => intro i v h; simp [getValueAux] at h
  | succ n ih =>
      intro i v h
      simp only [getValueAux] at h
      split at h
      · rw [List.mem_append] at h
        rcases h with h | h
        · split at h
          · rename_i hcond
            rw [Bool.and_eq_true, decide_eq_true_iff] at hcond
            obtain ⟨hrd, hkey⟩ := hcond
            simp only [List.mem_singleton] at h
            refine ⟨i, hrd, ?_⟩
            have h1 : (b.kv i).1 = k := by
              simpa [keyAt, hrd] using hkey
            have h2 : (b.kv i).2 = v := by
              simpa [valueAt, hrd] using h.symm
            rw [Prod.ext_iff]
            exact ⟨h1, h2⟩
          · simp at h
        · exact ih (i + 1) v h
      · simp at h

theorem contains_of_witness {B : Nat} {b : Bucket} {k v j : Nat}
    (hrd : isReadable B b j = true) (hkv : b.kv j = (k, v)) :
    bucketContains B b k v = true := by
  have hjB : j < B := (isReadable_iff.mp hrd).1
  rw [bucketContains, List.any_eq_true]
  exact ⟨j, List.mem_range.mpr hjB, by rw [Bool.and_eq_true, decide_eq_true_iff]; exact ⟨hrd, hkv⟩⟩

theorem setOccupied_kv (B : Nat) (b : Bucket) (i : Nat) : (setOccupied B b i).kv = b.kv := by
  unfold setOccupied
  split <;> rfl

theorem setOccupied_rd (B : Nat) (b : Bucket) (i : Nat) : (setOccupied B b i).rd = b.rd := by
  unfold setOccupied
  split <;> rfl

theorem setReadable_kv (B : Nat) (b : Bucket) (i : Nat) : (setReadable B b i).kv = b.kv := by
  unfold setReadable
  split <;> rfl

theorem setReadable_occ (B : Nat) (b : Bucket) (i : Nat) : (setReadable B b i).occ = b.occ := by
  unfold setReadable
  split <;> rfl

theorem setOccupied_occ_ne {B : Nat} {b : Bucket} {i j : Nat} (h : j ≠ i) :
    (setOccupied B b i).occ j = b.occ j := by
  unfold setOccupied
  split
  · simp [upd, h]
  · rfl

theorem setReadable_rd_ne {B : Nat} {b : Bucket} {i j : Nat} (h : j ≠ i) :
    (setReadable B b i).rd j = b.rd j := by
  unfold setReadable
  split
  · simp [upd, h]
  · rfl

/-- The bucket written by a successful insert at the free slot i0: the pair
lands at i0, both bits are set there, and every other slot is untouched. -/
theorem insert_preserves_contains (B : Nat) (b : Bucket) (k v k' v' : Nat)
    (h : bucketContains B b k' v' = true) :
    bucketContains B (bucketInsert B b k v).2 k' v' = true := by
  rw [bucketContains, List.any_eq_true] at h
  obtain ⟨j, hjr, hj⟩ := h
  rw [Bool.and_eq_true, decide_eq_true_iff] at hj
  obtain ⟨hrd, hkv⟩ := hj
  have hjB : j < B := (isReadable_iff.mp hrd).1
  unfold bucketInsert
  split
  · exact contains_of_witness hrd hkv
  · simp only []
    split
    · exact contains_of_witness hrd hkv
    · rename_i hne
      obtain ⟨h1, h2, h3⟩ := firstFree_cases B b B 0
      rcases h3 with h3 | h3
      · simp only [Nat.zero_add] at h3
        exact absurd h3 hne
      · have hoccj : isOccupied B b j = true :=
          isOccupied_iff.mpr ⟨hjB, (isReadable_iff.mp hrd).2.1⟩
        have hji : j ≠ firstFree B b 0 B := by
          intro hcontra
          rw [← hcontra] at h3
          rw [hoccj] at h3
          exact Bool.noConfusion h3
        apply contains_of_witness (j := j)
        · rw [isReadable_iff]
          refine ⟨hjB, ?_, ?_⟩
          · rw [setReadable_occ, setOccupied_occ_ne hji]
            exact (isReadable_iff.mp hrd).2.1
          · rw [setReadable_rd_ne hji, setOccupied_rd]
            exact (isReadable_iff.mp hrd).2.2
        · rw [setReadable_kv, setOccupied_kv]
          show upd b.kv (firstFree B b 0 B) (k, v) j = (k', v')
          simp only [upd, if_neg hji]
          exact hkv

/-- Inserting into a bucket whose occupied slots form the prefix [0, m) with
m < B: the pair is contained afterwards (either it already was, or it lands
at slot m), and the occupied slots are again a prefix of length m or
m + 1. -/
theorem insert_establishes (B : Nat) (img : Bucket) (k v m : Nat)
    (him : ∀ jj, isOccupied B img jj = true ↔ jj < m) (hmB : m < B) :
    bucketContains B (bucketInsert B img k v).2 k v = true ∧
    ∃ m', m ≤ m' ∧ m' ≤ m + 1 ∧
      ∀ jj, isOccupied B (bucketInsert B img k v).2 jj = true ↔ jj < m' := by
  unfold bucketInsert
  split
  · rename_i hdup
    constructor
    · have hv : v ∈ bucketGetValue B img k := by
        simpa using hdup
      obtain ⟨j, hrd, hkv⟩ := getValueAux_mem B img k B 0 v hv
      exact contains_of_witness hrd hkv
    · exact ⟨m, Nat.le_refl m, by omega, him⟩
  · have hff : firstFree B img 0 B = m :=
      firstFree_of_prefix B img m him B 0 (by omega) (by omega)
    have hmB' : ¬ m = B := by omega
    simp only [hff, if_neg hmB']
    constructor
    · apply contains_of_witness (j := m)
      · rw [isReadable_iff]
        refine ⟨hmB, ?_, ?_⟩
        · rw [setReadable_occ]
          simp [setOccupied, hmB, upd]
        · have hocc2 : isOccupied B (setOccupied B { img with kv := upd img.kv m (k, v) } m) m
              = true := by
            simp [setOccupied, isOccupied, hmB, upd]
          simp [setReadable, hmB, hocc2, upd]
      · rw [setReadable_kv, setOccupied_kv]
        simp [upd]
    · refine ⟨m + 1, by omega, Nat.le_refl _, ?_⟩
      intro jj
      by_cases hjj : jj = m
      · subst hjj
        constructor
        · intro _
          omega
        · intro _
          rw [isOccupied_iff]
          refine ⟨hmB, ?_⟩
          rw [setReadable_occ]
          simp [setOccupied, hmB, upd]
      · rw [isOccupied_iff]
        constructor
        · rintro ⟨hjjB, hocc⟩
          rw [setReadable_occ, setOccupied_occ_ne hjj] at hocc
          have hoi : isOccupied B img jj = true := isOccupied_iff.mpr ⟨hjjB, hocc⟩
          have := (him jj).mp hoi
          omega
        · intro hjm
          have hjlt : jj < m := by omega
          obtain ⟨hjjB, hoccj⟩ := isOccupied_iff.mp ((him jj).mpr hjlt)
          refine ⟨hjjB, ?_⟩
          rw [setReadable_occ, setOccupied_occ_ne hjj]
          exact hoccj

theorem readableCountFrom_le (B : Nat) (b : Bucket) :
    ∀ fuel i, readableCountFrom B b i fuel ≤ fuel := by
  intro fuel
  induction fuel with
  | zero => intro i; simp [readableCountFrom]
  | succ n ih =>
      intro i
      simp only [readableCountFrom]
      have := ih (i + 1)
      split <;> omega

theorem readableCountFrom_congr (B : Nat) (b b' : Bucket) :
    ∀ fuel i, (∀ j, i ≤ j → j < i + fuel → isReadable B b j = isReadable B b' j) →
      readableCountFrom B b i fuel = readableCountFrom B b' i fuel := by
  intro fuel
  induction fuel with
  | zero => intro i _; rfl
  | succ n ih =>
      intro i h
      simp only [readableCountFrom]
      rw [h i (Nat.le_refl i) (by omega),
        ih (i + 1) (fun j hj1 hj2 => h j (by omega) (by omega))]

theorem migrateSpec_old_unreadable (hashFn : Nat → Nat) (B localMask highBits : Nat) :
    ∀ fuel i old img j, isReadable B old j = false →
      isReadable B (migrateSpec hashFn B localMask highBits old img i fuel).1 j = false := by
  intro fuel
  induction fuel with
  | zero => intro i old img j h; simpa [migrateSpec] using h
  | succ n ih =>
      intro i old img j h
      simp only [migrateSpec]
      split
      · split
        · exact ih (i + 1) _ _ j (isReadable_removeAt_false h)
        · exact ih (i + 1) _ _ j h
      · simpa using h

theorem migrateSpec_contains (hashFn : Nat → Nat) (B localMask highBits : Nat) :
    ∀ fuel i old img k v, bucketContains B img k v = true →
      bucketContains B (migrateSpec hashFn B localMask highBits old img i fuel).2 k v = true := by
  intro fuel
  induction fuel with
  | zero => intro i old img k v h; simpa [migrateSpec] using h
  | succ n ih =>
      intro i old img k v h
      simp only [migrateSpec]
      split
      · split
        · exact ih (i + 1) _ _ k v
            (insert_preserves_contains B img (keyAt B old i) (valueAt B old i) k v h)
        · exact ih (i + 1) _ _ k v h
      · simpa using h

/-- Main induction for the migration claim: over the spec-shaped scan, every
live slot at index at least i whose masked hash matches the image's high
bits ends cleared in the old bucket and contained in the image bucket,
provided the image's occupied slots form a prefix small enough to absorb the
remaining live slots. -/
theorem migrateSpec_moves (hashFn : Nat → Nat) (B localMask highBits : Nat) :
    ∀ fuel i old img m,
      i + fuel = B →
      (∀ jj, isOccupied B img jj = true ↔ jj < m) →
      m + readableCountFrom B old i fuel ≤ B →
      ∀ j, i ≤ j → j < B → isReadable B old j = true →
        hash32 hashFn (keyAt B old j) &&& localMask = highBits →
        isReadable B (migrateSpec hashFn B localMask highBits old img i fuel).1 j = false ∧
        bucketContains B (migrateSpec hashFn B localMask highBits old img i fuel).2
          (keyAt B old j) (valueAt B old j) = true := by
  intro fuel
  induction fuel with
  | zero => intro i old img m hiB _ _ j hj1 hj2 _ _; omega
  | succ n ih =>
      intro i old img m hiB him hbound j hj1 hj2 hrd hcond
      have hiltB : i < B := by omega
      simp only [migrateSpec]
      rw [if_pos hiltB]
      by_cases hstep : isReadable B old i = true ∧
          hash32 hashFn (keyAt B old i) &&& localMask = highBits
      · rw [if_pos hstep]
        have hrcf : readableCountFrom B old i (n + 1)
            = 1 + readableCountFrom B old (i + 1) n := by
          simp [readableCountFrom, hstep.1]
        have hmB : m < B := by omega
        obtain ⟨hcontains, m', hm'1, hm'2, him'⟩ :=
          insert_establishes B img (keyAt B old i) (valueAt B old i) m him hmB
        have hcongr : readableCountFrom B (removeAt B old i) (i + 1) n
            = readableCountFrom B old (i + 1) n :=
          readableCountFrom_congr B (removeAt B old i) old n (i + 1)
            (fun j1 hj11 _ => isReadable_removeAt_ne (by omega))
        have hbound' : m' + readableCountFrom B (removeAt B old i) (i + 1) n ≤ B := by
          omega
        rcases Nat.eq_or_lt_of_le hj1 with rfl | hlt
        · constructor
          · exact migrateSpec_old_unreadable hashFn B localMask highBits n (i + 1) _ _ i
              (isReadable_removeAt_self B old i)
          · exact migrateSpec_contains hashFn B localMask highBits n (i + 1) _ _ _ _ hcontains
        · have hji : j ≠ i := by omega
          have hrd' : isReadable B (removeAt B old i) j = true := by
            rw [isReadable_removeAt_ne hji]
            exact hrd
          have hkey' : keyAt B (removeAt B old i) j = keyAt B old j := keyAt_removeAt_ne hji
          have hval' : valueAt B (removeAt B old i) j = valueAt B old j := valueAt_removeAt_ne hji
          have hres := ih (i + 1) (removeAt B old i)
            (bucketInsert B img (keyAt B old i) (valueAt B old i)).2 m'
            (by omega) him' hbound' j hlt hj2 hrd' (by rw [hkey']; exact hcond)
          rw [hkey', hval'] at hres
          exact hres
      · rw [if_neg hstep]
        have hbound' : m + readableCountFrom B old (i + 1) n ≤ B := by
          have hx : readableCountFrom B old i (n + 1)
              = (if isReadable B old i = true then 1 else 0)
                + readableCountFrom B old (i + 1) n := by
            simp [readableCountFrom]
          rw [hx] at hbound
          split at hbound <;> omega
        have hji : j ≠ i := by
          rintro rfl
          exact hstep ⟨hrd, hcond⟩
        exact ih (i + 1) old img m (by omega) him hbound' j (by omega) hj2 hrd hcond

theorem migrate_eq_migrateSpec (hashFn : Nat → Nat) (B localMask highBits : Nat) :
    ∀ fuel i old img,
      (∀ j, i ≤ j → j < B → isReadable B old j = true) →
      migrate hashFn B localMask highBits B old img i fuel
        = migrateSpec hashFn B localMask highBits old img i fuel := by
  intro fuel
  induction fuel with
  | zero => intro i old img _; simp [migrate, migrateSpec]
  | succ n ih =>
      intro i old img hR
      simp only [migrate, migrateSpec]
      by_cases hiB : i < B
      · have hrd : isReadable B old i = true := hR i (Nat.le_refl i) hiB
        rw [if_pos ⟨hiB, hrd⟩, if_pos hiB]
        by_cases hcond : hash32 hashFn (keyAt B old i) &&& localMask = highBits
        · rw [if_pos hcond, if_pos ⟨hrd, hcond⟩]
          apply ih
          intro j hj1 hj2
          rw [isReadable_removeAt_ne (by omega)]
          exact hR j (by omega) hj2
        · rw [if_neg hcond, if_neg (fun hc => hcond hc.2)]
          exact ih (i + 1) old img (fun j hj1 hj2 => hR j (by omega) hj2)
      · rw [if_neg (fun hc => hiB hc.1), if_neg hiB]

/-- C3: whenever SplitInsert migrates a full bucket (migration only runs on
full buckets, and size = NumReadable = B there), the source scan — whose
loop guard stops at the first unreadable slot — behaves exactly like the
spec's non-short-circuiting scan over [0, B), because every slot of a full
bucket is readable and the scan only clears slots it has already passed;
and every live slot whose hash masked by the bucket's local-depth mask
equals the split image's high bits is cleared in the old bucket and its
key-value pair is contained in the image bucket afterwards: no live pair is
skipped. -/
theorem split_migration_scans_all_slots (hashFn : Nat → Nat) (B localMask highBits : Nat)
    (old : Bucket) (hfull : bucketIsFull B old = true) :
    migrate hashFn B localMask highBits (bucketNumReadable B old) old emptyBucket 0
        (bucketNumReadable B old)
      = migrateSpec hashFn B localMask highBits old emptyBucket 0 B ∧
    ∀ j, j < B → isReadable B old j = true →
      hash32 hashFn (keyAt B old j) &&& localMask = highBits →
      isReadable B (migrate hashFn B localMask highBits (bucketNumReadable B old) old
          emptyBucket 0 (bucketNumReadable B old)).1 j = false ∧
      bucketContains B (migrate hashFn B localMask highBits (bucketNumReadable B old) old
          emptyBucket 0 (bucketNumReadable B old)).2
        (keyAt B old j) (valueAt B old j) = true := by
  have hnum : bucketNumReadable B old = B := by
    simpa [bucketIsFull] using hfull
  have hall : ∀ j, j < B → isReadable B old j = true := by
    intro j hj
    exact numReadableAux_full B old B 0 (by simpa [bucketNumReadable] using hnum) j
      (by omega) (by omega)
  have heq : migrate hashFn B localMask highBits (bucketNumReadable B old) old emptyBucket 0
      (bucketNumReadable B old) = migrateSpec hashFn B localMask highBits old emptyBucket 0 B := by
    rw [hnum]
    exact migrate_eq_migrateSpec hashFn B localMask highBits B 0 old emptyBucket
      (fun j _ hj => hall j hj)
  refine ⟨heq, ?_⟩
  intro j hj hrd hcond
  rw [heq]
  exact migrateSpec_moves hashFn B localMask highBits B 0 old emptyBucket 0 (by omega)
    (by intro jj; simp [isOccupied, emptyBucket])
    (by simpa using readableCountFrom_le B old B 0)
    j (by omega) hj hrd hcond

/-- Witness for C3: a full bucket of size 2 holding (1,10) and (3,30), local
mask 1, image high bits 1: the migration clears slot 1 (key 3, odd hash) in
the old bucket and the image bucket contains (3,30). -/
theorem split_migration_scans_all_slots_witness :
    bucketIsFull 2 ⟨fun _ => true, fun _ => true, fun j => if j = 0 then (1, 10) else (3, 30)⟩
      = true ∧
    isReadable 2 (migrate (fun k => k) 2 1 1
        (bucketNumReadable 2
          ⟨fun _ => true, fun _ => true, fun j => if j = 0 then (1, 10) else (3, 30)⟩)
        ⟨fun _ => true, fun _ => true, fun j => if j = 0 then (1, 10) else (3, 30)⟩
        emptyBucket 0
        (bucketNumReadable 2
          ⟨fun _ => true, fun _ => true, fun j => if j = 0 then (1, 10) else (3, 30)⟩)).1 1
      = false ∧
    bucketContains 2 (migrate (fun k => k) 2 1 1
        (bucketNumReadable 2
          ⟨fun _ => true, fun _ => true, fun j => if j = 0 then (1, 10) else (3, 30)⟩)
        ⟨fun _ => true, fun _ => true, fun j => if j = 0 then (1, 10) else (3, 30)⟩
        emptyBucket 0
        (bucketNumReadable 2
          ⟨fun _ => true, fun _ => true, fun j => if j = 0 then (1, 10) else (3, 30)⟩)).2
      (keyAt 2 ⟨fun _ => true, fun _ => true, fun j => if j = 0 then (1, 10) else (3, 30)⟩ 1)
      (valueAt 2 ⟨fun _ => true, fun _ => true, fun j => if j = 0 then (1, 10) else (3, 30)⟩ 1)
      = true :=
  ⟨by decide,
   ((split_migration_scans_all_slots (fun k => k) 2 1 1
      ⟨fun _ => true, fun _ => true, fun j => if j = 0 then (1, 10) else (3, 30)⟩
      (by decide)).2 1 (by decide) (by decide) (by decide)).1,
   ((split_migration_scans_all_slots (fun k => k) 2 1 1
      ⟨fun _ => true, fun _ => true, fun j => if j = 0 then (1, 10) else (3, 30)⟩
      (by decide)).2 1 (by decide) (by decide) (by decide)).2⟩

end Bustub
